import Mathlib

/-!
Verification of the domain-identity trust-state engine of the
nostr-addressing-assistant browser extension.

The development shallowly embeds the program's decision logic:

* `src/services/storage.ts` — the persisted domain→binding store, modelled as
  an association list mirroring the single JSON object kept in localStorage
  (`saveDomainInfo`, `getSavedInfoForDomain`, `getDomainsForPubkey`);
* `src/utils/validation.ts` — `isValidHexPubkey`, `isValidRelayUrl`,
  `parseRelays`;
* `src/hooks/useNostrAddressing.ts` — the per-page-visit evaluation pipeline
  (`handleScriptResults`, `handleMissingPubkey`, `fallbackToSavedPubkey`,
  `handleExistingDomain`, `handleNewDomain`, `checkNip37Events`,
  `processNip37Event`, `updateExtensionBadge`), written as explicit state
  passing over `EvalState`.  The network fetch `fetchLatestNip37Event` is an
  oracle parameter of the pipeline, and is separately embedded from
  `src/services/nostr.ts` over an explicit relay message stream;
* `src/components/NostrAddressingInfo.tsx` — the `handleKeepOldPubkey`
  user-override handler (store effect only; the handler performs no badge or
  notification call, which is observable in the model).

React `setState` calls become functional updates of `EvalState`; the
`chrome.action` badge plus the `domainMismatch` message to the background
script are folded into a single `badge : Option Bool` field (`some true` =
warning raised, `some false` = badge cleared, `none` = never touched).
-/

/-- A stored binding for one domain: `{pubkey, relays}` as kept in the
localStorage JSON object (`src/types/nostr.ts` / `storage.ts`). -/
structure DomainInfo where
  pubkey : String
  relays : List String
deriving DecidableEq, Repr

/-- The persisted store: the single JSON object keyed by domain, modelled as
an association list in insertion order (JS object keys preserve insertion
order; assigning an existing key keeps its position). -/
abbrev Store := List (String × DomainInfo)

/-- `savedInfo[domain] = {pubkey, relays}` on a JS object: replace the entry
in place when the key exists, append otherwise. -/
def setEntry : Store → String → DomainInfo → Store
  | [], domain, info => [(domain, info)]
  | e :: rest, domain, info =>
    if e.1 = domain then (domain, info) :: rest
    else e :: setEntry rest domain info

/-- `saveDomainInfo` (storage.ts): read the JSON object, assign
`savedInfo[domain] = {pubkey, relays}`, write it back. -/
def saveDomainInfo (store : Store) (domain pubkey : String) (relays : List String) : Store :=
  setEntry store domain ⟨pubkey, relays⟩

/-- `getSavedInfoForDomain` (storage.ts): `savedInfo[domain] || null`. -/
def getSavedInfoForDomain (store : Store) (domain : String) : Option DomainInfo :=
  (store.find? (fun e => e.1 == domain)).map (fun e => e.2)

/-- `getDomainsForPubkey` (storage.ts): all `(domain, info)` entries with
`info.pubkey === pubkey`, in object-entry (insertion) order. -/
def getDomainsForPubkey (store : Store) (pubkey : String) : List (String × DomainInfo) :=
  store.filter (fun e => e.2.pubkey == pubkey)

/-- `isValidHexPubkey` (validation.ts): `/^[0-9a-f]{64}$/i`. -/
def isHexChar (c : Char) : Bool :=
  (48 ≤ c.toNat && c.toNat ≤ 57) || (97 ≤ c.toNat && c.toNat ≤ 102) ||
    (65 ≤ c.toNat && c.toNat ≤ 70)

/-- `isValidHexPubkey` (validation.ts): exactly 64 hex characters,
case-insensitive. -/
def isValidHexPubkey (s : String) : Bool :=
  s.length == 64 && s.toList.all isHexChar

/-- JS `String.prototype.startsWith`, on the underlying character lists. -/
def strStartsWith (s p : String) : Bool :=
  p.toList.isPrefixOf s.toList

/-- Modelled from the spec: `isValidRelayUrl` (validation.ts) defers to the
platform WHATWG URL parser (`new URL`), which is not part of the repository;
per the spec a relay URL is valid iff it parses as an absolute URL with
scheme `ws` or `wss`.  We model this as a `ws://` or `wss://` prefix with a
nonempty remainder. -/
def isValidRelayUrl (url : String) : Bool :=
  (strStartsWith url "ws://" && url.length > 5) ||
    (strStartsWith url "wss://" && url.length > 6)

/-- JS `String.prototype.split(',')` on the underlying character list. -/
def splitCommaChars : List Char → List (List Char)
  | [] => [[]]
  | c :: cs =>
    match splitCommaChars cs with
    | [] => [[c]]
    | g :: gs => if c = ',' then [] :: g :: gs else (c :: g) :: gs

/-- JS `String.prototype.trim()`, modelled for ASCII whitespace. -/
def isJsWhitespace (c : Char) : Bool :=
  c = ' ' || c = '\t' || c = '\n' || c = '\r'

/-- Trim ASCII whitespace from both ends. -/
def jsTrim (s : String) : String :=
  String.mk (((s.toList.dropWhile isJsWhitespace).reverse.dropWhile isJsWhitespace).reverse)

/-- `parseRelays` (validation.ts): `null`/empty gives `[]`; otherwise split on
`,`, trim each piece, keep those that are nonempty and valid relay URLs. -/
def parseRelays (relayString : Option String) : List String :=
  match relayString with
  | none => []
  | some s =>
    if s = "" then []
    else
      (((splitCommaChars s.toList).map (fun l => jsTrim (String.mk l))).filter
        (fun r => !(r == "") && isValidRelayUrl r))

/-- A Nostr event as consumed by the engine (`@nostrify/nostrify` shape,
restricted to the fields the program reads). -/
structure NostrEvent where
  id : String
  pubkey : String
  created_at : Int
  kind : Int
  tags : List (List String)
deriving DecidableEq, Repr

/-- JS truthiness of `tag[i]`: defined and a nonempty string. -/
def truthyStr : Option String → Bool
  | some s => s != ""
  | none => false

/-- The tag filter of `processNip37Event`:
`tag[0] === 'clearnet' && !!tag[1] && !!tag[2]`. -/
def isClearnetTag (tag : List String) : Bool :=
  tag[0]? == some "clearnet" && truthyStr tag[1]? && truthyStr tag[2]?

/-- `clearnetTags.some(tag => tag[1] === currentDomain && tag[2] === protocol)`. -/
def domainFoundOf (ev : NostrEvent) (currentDomain protocol : String) : Bool :=
  (ev.tags.filter isClearnetTag).any
    (fun tag => tag[1]? == some currentDomain && tag[2]? == some protocol)

/-- `clearnetTags.map(tag => ({domain: tag[1], protocol: tag[2]}))`. -/
def nip37DomainsOf (ev : NostrEvent) : List (String × String) :=
  (ev.tags.filter isClearnetTag).map (fun tag => ((tag[1]?).getD "", (tag[2]?).getD ""))

/-- The result of the injected page script: the `content` and `relays`/`rel`
attributes of the `nostr-pubkey` meta tag (`getAttribute` returns `null` or a
string). -/
structure ScriptResult where
  pubkey : Option String
  relays : Option String

/-- The evaluation state: the React component state of `useNostrAddressing`
(fields `domain` … `extractedRelays`), extended with the explicit world state
the hook manipulates — the persisted `store`, the list of
`fetchLatestNip37Event` `queries` issued (key, relays), and the extension
`badge` (`some true` = warning raised with a `domainMismatch` message,
`some false` = badge cleared, `none` = never updated). -/
structure EvalState where
  domain : String
  pubkey : String
  relays : List String
  isValidPubkey : Bool
  savedInfo : Option DomainInfo
  pubkeyMismatch : Bool
  isNewDomain : Bool
  relaysUpdated : Bool
  nip37DomainMismatch : Bool
  noNip37EventFound : Bool
  nip37Domains : List (String × String)
  extractedPubkey : Option String
  extractedRelays : Option (List String)
  store : Store
  queries : List (String × List String)
  badge : Option Bool
deriving Repr

/-- The oracle for `fetchLatestNip37Event` as seen by the hook: pubkey and
relay list in, latest event or none out. -/
abbrev FetchOracle := String → List String → Option NostrEvent

/-- `updateExtensionBadge` (useNostrAddressing.ts): raise the warning badge
and notify the background script, or clear the badge. -/
def updateExtensionBadge (s : EvalState) (showWarning : Bool) : EvalState :=
  { s with badge := some showWarning }

/-- `processNip37Event` (useNostrAddressing.ts): filter well-formed clearnet
tags, check the observed (domain, protocol), save a first-time verified
binding when no pubkey mismatch is pending, record the endorsed domains, and
update the badge. -/
def processNip37Event (addressingEvent : NostrEvent) (currentDomain protocol : String)
    (s : EvalState) : EvalState :=
  let domainFound := domainFoundOf addressingEvent currentDomain protocol
  let domains := nip37DomainsOf addressingEvent
  let hasPubkeyMismatch := s.pubkeyMismatch
  let s1 :=
    if domainFound && !hasPubkeyMismatch then
      match getSavedInfoForDomain s.store currentDomain with
      | none => { s with store := saveDomainInfo s.store currentDomain s.pubkey s.relays }
      | some _ => s
    else s
  let s2 := { s1 with
    nip37DomainMismatch := !domainFound
    noNip37EventFound := false
    nip37Domains := domains
    pubkeyMismatch := hasPubkeyMismatch }
  updateExtensionBadge s2 (!domainFound || s2.pubkeyMismatch)

/-- `checkNip37Events` (useNostrAddressing.ts): fetch the latest kind-11111
event for the chosen pubkey/relays; process it, or mark the domain
unverified (no event found) and raise the badge. -/
def checkNip37Events (fetch : FetchOracle) (currentDomain pubkeyToCheck : String)
    (relaysToUse : List String) (protocol : String) (s : EvalState) : EvalState :=
  let s := { s with queries := s.queries ++ [(pubkeyToCheck, relaysToUse)] }
  match fetch pubkeyToCheck relaysToUse with
  | some addressingEvent => processNip37Event addressingEvent currentDomain protocol s
  | none =>
    let s := { s with nip37DomainMismatch := true, noNip37EventFound := true }
    updateExtensionBadge s true

/-- `handleExistingDomain` (useNostrAddressing.ts).  On a pubkey mismatch the
saved pubkey/relays stay authoritative; on a match, a changed relay list
(`JSON.stringify` comparison — equality of string arrays is equivalent to
list equality, since stringify is injective on them) is persisted only when a
fetched record verifies the observed (domain, protocol). -/
def handleExistingDomain (fetch : FetchOracle) (currentDomain extractedPubkey : String)
    (extractedParsedRelays : List String) (previousInfo : DomainInfo) (isValid : Bool)
    (protocol : String) (s : EvalState) : EvalState :=
  if previousInfo.pubkey ≠ extractedPubkey then
    let s := { s with
      pubkey := previousInfo.pubkey
      isValidPubkey := true
      relays := previousInfo.relays
      pubkeyMismatch := true
      extractedPubkey := some extractedPubkey
      extractedRelays := some extractedParsedRelays }
    checkNip37Events fetch currentDomain previousInfo.pubkey previousInfo.relays protocol s
  else
    let s := { s with
      pubkey := extractedPubkey
      isValidPubkey := isValid
      relays := extractedParsedRelays
      pubkeyMismatch := false }
    let relaysChanged := extractedParsedRelays ≠ previousInfo.relays
    let s :=
      if relaysChanged then
        let s := { s with queries := s.queries ++ [(previousInfo.pubkey, previousInfo.relays)] }
        match fetch previousInfo.pubkey previousInfo.relays with
        | some addressingEvent =>
          if domainFoundOf addressingEvent currentDomain protocol then
            { s with
              store := saveDomainInfo s.store currentDomain extractedPubkey extractedParsedRelays
              relaysUpdated := true }
          else s
        | none => s
      else s
    checkNip37Events fetch currentDomain previousInfo.pubkey previousInfo.relays protocol s

/-- `handleNewDomain` (useNostrAddressing.ts): re-read the store; with saved
info use it; else, if the claimed key is already bound to other domains,
treat as potential impersonation and keep the first prior owner's binding
authoritative; else trust-on-first-use the extracted key (record check only
when the key is valid hex). -/
def handleNewDomain (fetch : FetchOracle) (currentDomain extractedPubkey : String)
    (extractedParsedRelays : List String) (isValid : Bool) (protocol : String)
    (s : EvalState) : EvalState :=
  match getSavedInfoForDomain s.store currentDomain with
  | some savedInfo =>
    let hasPubkeyMismatch := savedInfo.pubkey ≠ extractedPubkey
    let s := { s with
      pubkey := savedInfo.pubkey
      isValidPubkey := true
      relays := savedInfo.relays
      isNewDomain := true
      pubkeyMismatch := hasPubkeyMismatch
      extractedPubkey := if hasPubkeyMismatch then some extractedPubkey else none
      extractedRelays := if hasPubkeyMismatch then some extractedParsedRelays else none }
    checkNip37Events fetch currentDomain savedInfo.pubkey savedInfo.relays protocol s
  | none =>
    match getDomainsForPubkey s.store extractedPubkey with
    | firstDomain :: _ =>
      let s := { s with
        pubkey := firstDomain.2.pubkey
        isValidPubkey := true
        relays := firstDomain.2.relays
        isNewDomain := true
        pubkeyMismatch := true
        extractedPubkey := some extractedPubkey
        extractedRelays := some extractedParsedRelays
        savedInfo := some firstDomain.2 }
      checkNip37Events fetch currentDomain firstDomain.2.pubkey firstDomain.2.relays protocol s
    | [] =>
      let s := { s with
        pubkey := extractedPubkey
        isValidPubkey := isValid
        relays := extractedParsedRelays
        isNewDomain := true
        pubkeyMismatch := false }
      if isValid then
        checkNip37Events fetch currentDomain extractedPubkey extractedParsedRelays protocol s
      else s

/-- `fallbackToSavedPubkey` (useNostrAddressing.ts): use the last-known-good
binding and check its record. -/
def fallbackToSavedPubkey (fetch : FetchOracle) (currentDomain : String)
    (previousInfo : DomainInfo) (protocol : String) (s : EvalState) : EvalState :=
  let s := { s with
    pubkey := previousInfo.pubkey ++ " (saved)"
    relays := previousInfo.relays
    isValidPubkey := true }
  checkNip37Events fetch currentDomain previousInfo.pubkey previousInfo.relays protocol s

/-- `handleMissingPubkey` (useNostrAddressing.ts): no pubkey in the meta tag. -/
def handleMissingPubkey (fetch : FetchOracle) (currentDomain : String)
    (previousInfo : Option DomainInfo) (protocol : String) (s : EvalState) : EvalState :=
  match previousInfo with
  | some info => fallbackToSavedPubkey fetch currentDomain info protocol s
  | none => { s with pubkey := "No Nostr pubkey found", isValidPubkey := false }

/-- `handleScriptResults` (useNostrAddressing.ts): dispatch on the presence
of a (truthy) extracted pubkey and of a prior binding. -/
def handleScriptResults (fetch : FetchOracle) (result : Option ScriptResult)
    (currentDomain : String) (previousInfo : Option DomainInfo) (protocol : String)
    (s : EvalState) : EvalState :=
  match result with
  | none => handleMissingPubkey fetch currentDomain previousInfo protocol s
  | some r =>
    match r.pubkey with
    | none => handleMissingPubkey fetch currentDomain previousInfo protocol s
    | some extractedPubkey =>
      if extractedPubkey = "" then
        handleMissingPubkey fetch currentDomain previousInfo protocol s
      else
        let extractedPubkeyIsValid := isValidHexPubkey extractedPubkey
        let extractedParsedRelays := parseRelays r.relays
        match previousInfo with
        | some info =>
          handleExistingDomain fetch currentDomain extractedPubkey extractedParsedRelays
            info extractedPubkeyIsValid protocol s
        | none =>
          handleNewDomain fetch currentDomain extractedPubkey extractedParsedRelays
            extractedPubkeyIsValid protocol s

/-- The `useState` initial value of the hook, with the domain and saved-info
updates of `initializeNostrAddressing` applied. -/
def initEvalState (store : Store) (currentDomain : String) : EvalState :=
  { domain := currentDomain
    pubkey := ""
    relays := []
    isValidPubkey := false
    savedInfo := getSavedInfoForDomain store currentDomain
    pubkeyMismatch := false
    isNewDomain := false
    relaysUpdated := false
    nip37DomainMismatch := false
    noNip37EventFound := false
    nip37Domains := []
    extractedPubkey := none
    extractedRelays := none
    store := store
    queries := []
    badge := none }

/-- One full evaluation of a page observation, as run by
`initializeNostrAddressing`: read the prior binding, then process the page
script result. -/
def evaluate (fetch : FetchOracle) (store : Store) (currentDomain protocol : String)
    (scriptResult : Option ScriptResult) : EvalState :=
  handleScriptResults fetch scriptResult currentDomain
    (getSavedInfoForDomain store currentDomain) protocol (initEvalState store currentDomain)

/-- `handleKeepOldPubkey` (NostrAddressingInfo.tsx): on the keep-incumbent
override, re-persist the previously trusted binding; the handler performs no
badge or notification update. -/
def handleKeepOldPubkey (store : Store) (domain : String) (savedInfo : Option DomainInfo) : Store :=
  match savedInfo with
  | some info => saveDomainInfo store domain info.pubkey info.relays
  | none => store

/-- The keep-incumbent override applied to the evaluation state: only the
store changes (the component sets its two local flags and calls
`saveDomainInfo`; the badge and background-script state are untouched). -/
def applyKeepOldPubkey (s : EvalState) (domain : String) : EvalState :=
  { s with store := handleKeepOldPubkey s.store domain s.savedInfo }

/-! ### The addressing-record fetch (`src/services/nostr.ts`) -/

/-- A message received from the relay pool stream: an `EVENT`, an `EOSE`, or
anything else.  A transport error truncates the stream. -/
inductive RelayMsg where
  | event : NostrEvent → RelayMsg
  | eose : RelayMsg
  | other : RelayMsg
deriving DecidableEq, Repr

/-- The subscription filter sent by `fetchLatestNip37Event`. -/
structure NostrFilter where
  kinds : List Int
  authors : List String
  since : Int
deriving DecidableEq, Repr

/-- The event-collection loop of `fetchLatestNip37Event`: push each `EVENT`
whose id has not been seen, stop at `EOSE` (or at the end of the truncated
stream on error). -/
def collectEvents : List RelayMsg → List NostrEvent → List NostrEvent
  | [], acc => acc
  | RelayMsg.event e :: rest, acc =>
    if (acc.find? (fun x => x.id == e.id)).isSome then collectEvents rest acc
    else collectEvents rest (acc ++ [e])
  | RelayMsg.eose :: _, acc => acc
  | RelayMsg.other :: rest, acc => collectEvents rest acc

/-- The `reduce` of `fetchLatestNip37Event`: keep the event with the larger
`created_at`, the earlier one on ties. -/
def reduceLatest (h : NostrEvent) (t : List NostrEvent) : NostrEvent :=
  t.foldl (fun prev next => if next.created_at > prev.created_at then next else prev) h

/-- `fetchLatestNip37Event` (nostr.ts): skip on an empty relay list; subscribe
with `{kinds: [11111], authors: [pubkey], since: now - 90 days}`; collect and
deduplicate events until EOSE; return `none` on an empty result, else the
latest event.  `relayResp` is the relay pool's response stream to the filter
(a transport error is a truncated stream). -/
def fetchLatestNip37Event (now : Int) (pubkey : String) (relays : List String)
    (relayResp : NostrFilter → List RelayMsg) : Option NostrEvent :=
  if relays = [] then none
  else
    match collectEvents (relayResp ⟨[11111], [pubkey], now - 3 * 30 * 24 * 60 * 60⟩) [] with
    | [] => none
    | h :: t => some (reduceLatest h t)

/-! ### Helper lemmas -/

theorem getSaved_setEntry_same (d : String) (i : DomainInfo) :
    ∀ store : Store, getSavedInfoForDomain (setEntry store d i) d = some i := by
  intro store
  induction store with
  | nil => simp [setEntry, getSavedInfoForDomain, List.find?]
  | cons e rest ih =>
    by_cases h : e.1 = d
    · simp [setEntry, h, getSavedInfoForDomain, List.find?]
    · simpa [setEntry, h, getSavedInfoForDomain, List.find?] using ih

theorem getSaved_setEntry_other (d d' : String) (i : DomainInfo) (hne : d' ≠ d) :
    ∀ store : Store,
      getSavedInfoForDomain (setEntry store d i) d' = getSavedInfoForDomain store d' := by
  have hdd : (d == d') = false := beq_eq_false_iff_ne.mpr (Ne.symm hne)
  intro store
  induction store with
  | nil => simp [setEntry, getSavedInfoForDomain, List.find?, hdd]
  | cons e rest ih =>
    by_cases h : e.1 = d
    · have hed : (e.1 == d') = false := beq_eq_false_iff_ne.mpr (h ▸ Ne.symm hne)
      simp [setEntry, h, getSavedInfoForDomain, List.find?, hdd, hed]
    · cases h' : (e.1 == d') with
      | true => simp [setEntry, h, getSavedInfoForDomain, List.find?, h']
      | false => simpa [setEntry, h, getSavedInfoForDomain, List.find?, h'] using ih

theorem setEntry_idem (d : String) (i : DomainInfo) :
    ∀ store : Store, setEntry (setEntry store d i) d i = setEntry store d i := by
  intro store
  induction store with
  | nil => simp [setEntry]
  | cons e rest ih =>
    by_cases h : e.1 = d
    · simp [setEntry, h]
    · simp [setEntry, h, ih]

theorem validHex_ne_empty {s : String} (h : isValidHexPubkey s = true) : s ≠ "" := by
  intro he
  subst he
  simp [isValidHexPubkey, String.length] at h

theorem getDomainsForPubkey_mem_pubkey {store : Store} {k : String}
    {e : String × DomainInfo} (h : e ∈ getDomainsForPubkey store k) : e.2.pubkey = k := by
  have := List.mem_filter.mp h
  simpa using this.2

/-- Full characterization of one `checkNip37Events` step. -/
theorem checkNip37Events_eq (f : FetchOracle) (d k : String) (rs : List String)
    (p : String) (s : EvalState) :
    checkNip37Events f d k rs p s =
      match f k rs with
      | none =>
        { s with queries := s.queries ++ [(k, rs)],
                 nip37DomainMismatch := true, noNip37EventFound := true,
                 badge := some true }
      | some ev =>
        { s with
          store :=
            if domainFoundOf ev d p && !s.pubkeyMismatch
                && (getSavedInfoForDomain s.store d).isNone then
              saveDomainInfo s.store d s.pubkey s.relays
            else s.store
          queries := s.queries ++ [(k, rs)]
          nip37DomainMismatch := !domainFoundOf ev d p
          noNip37EventFound := false
          nip37Domains := nip37DomainsOf ev
          badge := some (!domainFoundOf ev d p || s.pubkeyMismatch) } := by
  cases h : f k rs with
  | none => simp [checkNip37Events, h, updateExtensionBadge]
  | some ev =>
    simp only [checkNip37Events, h, processNip37Event, updateExtensionBadge]
    cases h1 : domainFoundOf ev d p && !s.pubkeyMismatch with
    | false => simp [h1]
    | true =>
      cases h2 : getSavedInfoForDomain s.store d with
      | none => simp [h1, h2]
      | some info => simp [h1, h2]

theorem collectEvents_pairwise :
    ∀ (msgs : List RelayMsg) (acc : List NostrEvent),
      acc.Pairwise (fun a b => a.id ≠ b.id) →
      (collectEvents msgs acc).Pairwise (fun a b => a.id ≠ b.id) := by
  intro msgs
  induction msgs with
  | nil => intro acc h; simpa [collectEvents] using h
  | cons m rest ih =>
    intro acc h
    cases m with
    | event e =>
      cases hf : (acc.find? (fun x => x.id == e.id)).isSome with
      | true => simpa [collectEvents, hf] using ih acc h
      | false =>
        have hnone : acc.find? (fun x => x.id == e.id) = none := by
          cases hacc : acc.find? (fun x => x.id == e.id) with
          | none => rfl
          | some w => rw [hacc] at hf; simp at hf
        have hall := List.find?_eq_none.mp hnone
        have happ : (acc ++ [e]).Pairwise (fun a b => a.id ≠ b.id) := by
          rw [List.pairwise_append]
          refine ⟨h, by simp, ?_⟩
          intro a ha b hb
          have hb' : b = e := by simpa using hb
          subst hb'
          intro heq
          exact hall a ha (by simp [heq])
        simpa [collectEvents, hf] using ih (acc ++ [e]) happ
    | eose => simpa [collectEvents] using h
    | other => simpa [collectEvents] using ih acc h

theorem collectEvents_sound (P : NostrEvent → Prop) :
    ∀ (msgs : List RelayMsg) (acc : List NostrEvent),
      (∀ e, RelayMsg.event e ∈ msgs → P e) → (∀ e ∈ acc, P e) →
      ∀ e ∈ collectEvents msgs acc, P e := by
  intro msgs
  induction msgs with
  | nil => intro acc _ ha; simpa [collectEvents] using ha
  | cons m rest ih =>
    intro acc hm ha
    cases m with
    | event e0 =>
      have hm' : ∀ e, RelayMsg.event e ∈ rest → P e := fun e he => hm e (by simp [he])
      have he0 : P e0 := hm e0 (by simp)
      cases hf : (acc.find? (fun x => x.id == e0.id)).isSome with
      | true => simpa [collectEvents, hf] using ih acc hm' ha
      | false =>
        have ha' : ∀ e ∈ acc ++ [e0], P e := by
          intro e he
          rcases List.mem_append.mp he with h1 | h1
          · exact ha e h1
          · have : e = e0 := by simpa using h1
            exact this ▸ he0
        simpa [collectEvents, hf] using ih (acc ++ [e0]) hm' ha'
    | eose => simpa [collectEvents] using ha
    | other =>
      have hm' : ∀ e, RelayMsg.event e ∈ rest → P e := fun e he => hm e (by simp [he])
      simpa [collectEvents] using ih acc hm' ha

theorem reduceLatest_mem :
    ∀ (t : List NostrEvent) (h : NostrEvent), reduceLatest h t ∈ h :: t := by
  intro t
  induction t with
  | nil => intro h; simp [reduceLatest]
  | cons y t ih =>
    intro h
    have heq : reduceLatest h (y :: t) =
        reduceLatest (if y.created_at > h.created_at then y else h) t := rfl
    rw [heq]
    rcases List.mem_cons.mp (ih (if y.created_at > h.created_at then y else h)) with h1 | h1
    · rw [h1]
      by_cases hc : y.created_at > h.created_at <;> simp [hc]
    · simp [h1]

theorem reduceLatest_ge :
    ∀ (t : List NostrEvent) (h : NostrEvent),
      ∀ x ∈ h :: t, x.created_at ≤ (reduceLatest h t).created_at := by
  intro t
  induction t with
  | nil =>
    intro h x hx
    have : x = h := by simpa using hx
    simp [this, reduceLatest]
  | cons y t ih =>
    intro h x hx
    have heq : reduceLatest h (y :: t) =
        reduceLatest (if y.created_at > h.created_at then y else h) t := rfl
    rw [heq]
    have hh : h.created_at ≤ (if y.created_at > h.created_at then y else h).created_at := by
      by_cases hc : y.created_at > h.created_at
      · rw [if_pos hc]; omega
      · simp [hc]
    have hy : y.created_at ≤ (if y.created_at > h.created_at then y else h).created_at := by
      by_cases hc : y.created_at > h.created_at
      · simp [hc]
      · rw [if_neg hc]; omega
    have hhead := ih (if y.created_at > h.created_at then y else h)
      (if y.created_at > h.created_at then y else h) (by simp)
    rcases List.mem_cons.mp hx with rfl | h1
    · exact le_trans hh hhead
    · rcases List.mem_cons.mp h1 with rfl | h2
      · exact le_trans hy hhead
      · exact ih (if y.created_at > h.created_at then y else h) x (List.mem_cons_of_mem _ h2)

/-- Claim C8: for every fetch outcome, `fetchLatestNip37Event` deduplicates
the received events by event id, is restricted (through the subscription
filter, honoured by conforming relays) to events authored by the queried key,
of kind 11111, and issued within the 90-day window, and returns the single
surviving event with the greatest `created_at`; it returns `none` exactly
when no event survives (in particular for an empty relay list or an
errored/empty stream), so the latest-selection reduce is never applied to an
empty sequence. -/
theorem claim_C8 (now : Int) (pubkey : String) (relays : List String)
    (relayResp : NostrFilter → List RelayMsg)
    (honest : ∀ f e, RelayMsg.event e ∈ relayResp f →
      e.kind ∈ f.kinds ∧ e.pubkey ∈ f.authors ∧ f.since ≤ e.created_at) :
    (fetchLatestNip37Event now pubkey relays relayResp = none ↔
      (relays = [] ∨
        collectEvents (relayResp ⟨[11111], [pubkey], now - 3 * 30 * 24 * 60 * 60⟩) [] = []))
    ∧ (collectEvents (relayResp ⟨[11111], [pubkey], now - 3 * 30 * 24 * 60 * 60⟩) []).Pairwise
        (fun a b => a.id ≠ b.id)
    ∧ (∀ e, fetchLatestNip37Event now pubkey relays relayResp = some e →
        e ∈ collectEvents (relayResp ⟨[11111], [pubkey], now - 3 * 30 * 24 * 60 * 60⟩) []
        ∧ e.pubkey = pubkey ∧ e.kind = 11111 ∧ now - 7776000 ≤ e.created_at
        ∧ ∀ e' ∈ collectEvents (relayResp ⟨[11111], [pubkey], now - 3 * 30 * 24 * 60 * 60⟩) [],
            e'.created_at ≤ e.created_at) := by
  have hsound : ∀ e ∈ collectEvents
      (relayResp ⟨[11111], [pubkey], now - 3 * 30 * 24 * 60 * 60⟩) [],
      e.kind ∈ ([11111] : List Int) ∧ e.pubkey ∈ [pubkey]
        ∧ now - 3 * 30 * 24 * 60 * 60 ≤ e.created_at := by
    exact collectEvents_sound _ _ []
      (fun e he => honest ⟨[11111], [pubkey], now - 3 * 30 * 24 * 60 * 60⟩ e he) (by simp)
  refine ⟨?_, collectEvents_pairwise _ [] (by simp), ?_⟩
  · constructor
    · intro hnone
      by_cases hr : relays = []
      · exact Or.inl hr
      · refine Or.inr ?_
        unfold fetchLatestNip37Event at hnone
        rw [if_neg hr] at hnone
        cases hcoll : collectEvents
            (relayResp ⟨[11111], [pubkey], now - 3 * 30 * 24 * 60 * 60⟩) [] with
        | nil => rfl
        | cons h t => rw [hcoll] at hnone; simp at hnone
    · intro h
      rcases h with hr | hcoll
      · simp [fetchLatestNip37Event, hr]
      · unfold fetchLatestNip37Event
        by_cases hr : relays = []
        · simp [hr]
        · rw [if_neg hr, hcoll]
  · intro e hsome
    unfold fetchLatestNip37Event at hsome
    by_cases hr : relays = []
    · simp [hr] at hsome
    · rw [if_neg hr] at hsome
      cases hcoll : collectEvents
          (relayResp ⟨[11111], [pubkey], now - 3 * 30 * 24 * 60 * 60⟩) [] with
      | nil => rw [hcoll] at hsome; simp at hsome
      | cons h t =>
        rw [hcoll] at hsome
        have he : e = reduceLatest h t := by simpa using hsome.symm
        have hmem : e ∈ h :: t := he ▸ reduceLatest_mem t h
        have hprops := hsound e (by rw [hcoll]; exact hmem)
        refine ⟨hmem, by simpa using hprops.2.1, by simpa using hprops.1, ?_, ?_⟩
        · have hfs : now - 3 * 30 * 24 * 60 * 60 = now - 7776000 := by norm_num
          exact hfs ▸ hprops.2.2
        · intro e' he'
          rw [he]
          exact reduceLatest_ge t h e' he'

/-- A relay response used as a concrete witness input: answer a subscription
with the single event below when it matches the filter. -/
def wEv : NostrEvent := ⟨"id1", "p", 0, 11111, []⟩

/-- A conforming relay stream for the witness. -/
def wRelayResp (f : NostrFilter) : List RelayMsg :=
  if decide (wEv.kind ∈ f.kinds) && decide (wEv.pubkey ∈ f.authors)
      && decide (f.since ≤ wEv.created_at) then
    [RelayMsg.event wEv, RelayMsg.eose]
  else [RelayMsg.eose]

theorem wRelayResp_honest : ∀ f e, RelayMsg.event e ∈ wRelayResp f →
    e.kind ∈ f.kinds ∧ e.pubkey ∈ f.authors ∧ f.since ≤ e.created_at := by
  intro f e he
  unfold wRelayResp at he
  split at he
  · next hcond =>
    simp only [List.mem_cons, List.mem_singleton] at he
    rcases he with he | he
    · have hee : e = wEv := by injection he
      subst hee
      simp only [Bool.and_eq_true, decide_eq_true_eq] at hcond
      exact ⟨hcond.1.1, hcond.1.2, hcond.2⟩
    · simp at he
  · next =>
    simp at he

theorem claim_C8_witness :
    wEv ∈ collectEvents (wRelayResp ⟨[11111], ["p"], 0 - 3 * 30 * 24 * 60 * 60⟩) []
    ∧ wEv.pubkey = "p" ∧ wEv.kind = 11111 := by
  have h := claim_C8 0 "p" ["wss://r"] wRelayResp wRelayResp_honest
  have hs := h.2.2 wEv (by decide)
  exact ⟨hs.1, hs.2.1, hs.2.2.1⟩

/-- The claimed key of a script result as the engine sees it: present iff the
injected script returned a truthy (nonempty) `content` attribute. -/
def claimedKeyOf : Option ScriptResult → Option String
  | some r =>
    match r.pubkey with
    | some p => if p = "" then none else some p
    | none => none
  | none => none

/-- Follows the spec's words (§3 invariant, glossary "Authoritative key"):
the key that should be used to query the addressing record — the stored
binding's key when one exists, the first prior owner's stored key when only
the claimed key is known to the store, the claimed key otherwise, and no
lookup at all when neither a binding nor a claimed key exists. -/
def specAuthoritativeKey (store : Store) (domain : String) (claimed : Option String) :
    Option String :=
  match getSavedInfoForDomain store domain with
  | some info => some info.pubkey
  | none =>
    match claimed with
    | some ck =>
      match getDomainsForPubkey store ck with
      | e :: _ => some e.2.pubkey
      | [] => some ck
    | none => none

/-- Whether the record fetched for `(k, rs)` verifies the observed
`(domain, protocol)` pair. -/
def verifiedAt (fetch : FetchOracle) (k : String) (rs : List String)
    (domain protocol : String) : Bool :=
  match fetch k rs with
  | some ev => domainFoundOf ev domain protocol
  | none => false

theorem evaluate_some_key (fetch : FetchOracle) (store : Store) (d protocol ck : String)
    (raw : Option String) (hck : ck ≠ "") :
    evaluate fetch store d protocol (some ⟨some ck, raw⟩) =
      match getSavedInfoForDomain store d with
      | some info =>
        handleExistingDomain fetch d ck (parseRelays raw) info (isValidHexPubkey ck)
          protocol (initEvalState store d)
      | none =>
        handleNewDomain fetch d ck (parseRelays raw) (isValidHexPubkey ck) protocol
          (initEvalState store d) := by
  cases h : getSavedInfoForDomain store d with
  | none => simp [evaluate, handleScriptResults, h, hck]
  | some info => simp [evaluate, handleScriptResults, h, hck]

theorem evaluate_missing_key (fetch : FetchOracle) (store : Store) (d protocol : String)
    (sr : Option ScriptResult) (h : claimedKeyOf sr = none) :
    evaluate fetch store d protocol sr =
      handleMissingPubkey fetch d (getSavedInfoForDomain store d) protocol
        (initEvalState store d) := by
  cases sr with
  | none => rfl
  | some r =>
    cases hp : r.pubkey with
    | none =>
      cases r
      simp_all [evaluate, handleScriptResults]
    | some p =>
      have hpe : p = "" := by
        by_cases hc : p = ""
        · exact hc
        · simp [claimedKeyOf, hp, hc] at h
      cases r
      simp_all [evaluate, handleScriptResults]

/-- Claim C9: applying the Keep-incumbent override twice in a row for the
same domain and stored binding yields exactly the store of applying it
once. -/
theorem claim_C9 (store : Store) (domain : String) (savedInfo : Option DomainInfo) :
    handleKeepOldPubkey (handleKeepOldPubkey store domain savedInfo) domain savedInfo =
      handleKeepOldPubkey store domain savedInfo := by
  cases savedInfo with
  | none => rfl
  | some info => exact setEntry_idem domain ⟨info.pubkey, info.relays⟩ store

/-- Claim C10: `saveDomainInfo` only touches the entry of the written domain:
afterwards the lookup of that domain yields the written binding, and the
lookup of every other domain is unchanged. -/
theorem claim_C10 (store : Store) (d k : String) (rs : List String) :
    getSavedInfoForDomain (saveDomainInfo store d k rs) d = some ⟨k, rs⟩
    ∧ ∀ d', d' ≠ d →
        getSavedInfoForDomain (saveDomainInfo store d k rs) d' =
          getSavedInfoForDomain store d' :=
  ⟨getSaved_setEntry_same d ⟨k, rs⟩ store,
   fun d' h => getSaved_setEntry_other d d' ⟨k, rs⟩ h store⟩

theorem claim_C10_witness :
    getSavedInfoForDomain (saveDomainInfo [("a", ⟨"p1", []⟩)] "b" "p2" ["wss://r"]) "b" =
      some ⟨"p2", ["wss://r"]⟩
    ∧ getSavedInfoForDomain (saveDomainInfo [("a", ⟨"p1", []⟩)] "b" "p2" ["wss://r"]) "a" =
        getSavedInfoForDomain [("a", ⟨"p1", []⟩)] "a" := by
  have h := claim_C10 [("a", ⟨"p1", []⟩)] "b" "p2" ["wss://r"]
  exact ⟨h.1, h.2 "a" (by decide)⟩

/-- Claim C1: a new domain `d2` claiming a valid key `k1` that is already
bound to another domain `d1` yields the impersonation verdict (pubkey
mismatch on a new domain), queries the record with the prior owner's stored
key — which is `k1` itself — and its stored relays, and never writes a
binding for `d2`, whatever the record lookup returns. -/
theorem claim_C1 (fetch : FetchOracle) (store : Store) (d2 protocol k1 : String)
    (raw : Option String) (d1 : String) (info1 : DomainInfo)
    (rest : List (String × DomainInfo))
    (hnew : getSavedInfoForDomain store d2 = none)
    (hvalid : isValidHexPubkey k1 = true)
    (hbound : getDomainsForPubkey store k1 = (d1, info1) :: rest)
    (_hother : d1 ≠ d2) :
    (evaluate fetch store d2 protocol (some ⟨some k1, raw⟩)).pubkeyMismatch = true
    ∧ (evaluate fetch store d2 protocol (some ⟨some k1, raw⟩)).isNewDomain = true
    ∧ (evaluate fetch store d2 protocol (some ⟨some k1, raw⟩)).queries =
        [(info1.pubkey, info1.relays)]
    ∧ info1.pubkey = k1
    ∧ (evaluate fetch store d2 protocol (some ⟨some k1, raw⟩)).store = store := by
  have hk1 : k1 ≠ "" := validHex_ne_empty hvalid
  have hpk : info1.pubkey = k1 :=
    @getDomainsForPubkey_mem_pubkey store k1 (d1, info1)
      (by rw [hbound]; exact List.mem_cons_self _ _)
  rw [evaluate_some_key fetch store d2 protocol k1 raw hk1, hnew]
  simp only [handleNewDomain, initEvalState, hnew, hbound]
  rw [checkNip37Events_eq]
  cases hf : fetch info1.pubkey info1.relays with
  | none => simp [hf, hpk]
  | some ev => simp [hf, hpk]

/-- Concrete 64-character hex key for witnesses. -/
def kA : String := String.mk (List.replicate 64 'a')

/-- A second concrete 64-character hex key. -/
def kB : String := String.mk (List.replicate 64 'b')

/-- A concrete addressing record endorsing `(d, https)` and `(e, http)`. -/
def evDE : NostrEvent :=
  ⟨"id1", kA, 5, 11111, [["clearnet", "d", "https"], ["clearnet", "e", "http"]]⟩

theorem claim_C1_witness :
    getSavedInfoForDomain [("d1", ⟨kA, ["wss://a"]⟩)] "d2" = none
    ∧ isValidHexPubkey kA = true
    ∧ getDomainsForPubkey [("d1", ⟨kA, ["wss://a"]⟩)] kA = [("d1", ⟨kA, ["wss://a"]⟩)]
    ∧ "d1" ≠ "d2"
    ∧ (evaluate (fun _ _ => some evDE) [("d1", ⟨kA, ["wss://a"]⟩)] "d2" "https"
        (some ⟨some kA, none⟩)).store = [("d1", ⟨kA, ["wss://a"]⟩)] := by
  refine ⟨by decide, by decide, by decide, by decide, ?_⟩
  have h := claim_C1 (fun _ _ => some evDE) [("d1", ⟨kA, ["wss://a"]⟩)] "d2" "https" kA
    none "d1" ⟨kA, ["wss://a"]⟩ [] (by decide) (by decide) (by decide) (by decide)
  exact h.2.2.2.2

theorem queries_missing (fetch : FetchOracle) (store : Store) (d protocol : String) :
    ∀ q ∈ (handleMissingPubkey fetch d (getSavedInfoForDomain store d) protocol
        (initEvalState store d)).queries,
      some q.1 = specAuthoritativeKey store d none := by
  cases hs : getSavedInfoForDomain store d with
  | some info =>
    simp only [handleMissingPubkey, fallbackToSavedPubkey]
    rw [checkNip37Events_eq]
    cases hf : fetch info.pubkey info.relays with
    | none => simp [initEvalState, specAuthoritativeKey, hs]
    | some ev => simp [initEvalState, specAuthoritativeKey, hs]
  | none => simp [handleMissingPubkey, initEvalState]

theorem queries_present (fetch : FetchOracle) (store : Store) (d protocol ck : String)
    (raw : Option String) (hck : ck ≠ "") :
    ∀ q ∈ (evaluate fetch store d protocol (some ⟨some ck, raw⟩)).queries,
      some q.1 = specAuthoritativeKey store d (some ck) := by
  rw [evaluate_some_key fetch store d protocol ck raw hck]
  cases hs : getSavedInfoForDomain store d with
  | some info =>
    simp only [handleExistingDomain]
    split
    · rw [checkNip37Events_eq]
      cases hf : fetch info.pubkey info.relays with
      | none => simp [initEvalState, specAuthoritativeKey, hs]
      | some ev => simp [initEvalState, specAuthoritativeKey, hs]
    · rw [checkNip37Events_eq]
      cases hf : fetch info.pubkey info.relays with
      | none =>
        by_cases hrc : parseRelays raw ≠ info.relays
        · simp [hf, hrc, initEvalState, specAuthoritativeKey, hs]
        · simp [hf, hrc, initEvalState, specAuthoritativeKey, hs]
      | some ev =>
        by_cases hrc : parseRelays raw ≠ info.relays
        · by_cases hdf : domainFoundOf ev d protocol
          · simp [hf, hrc, hdf, initEvalState, specAuthoritativeKey, hs]
          · simp [hf, hrc, hdf, initEvalState, specAuthoritativeKey, hs]
        · simp [hf, hrc, initEvalState, specAuthoritativeKey, hs]
  | none =>
    simp only [handleNewDomain, initEvalState, hs]
    cases hd : getDomainsForPubkey store ck with
    | cons e rest =>
      simp only [hd]
      rw [checkNip37Events_eq]
      cases hf : fetch e.2.pubkey e.2.relays with
      | none => simp [specAuthoritativeKey, hs, hd]
      | some ev => simp [specAuthoritativeKey, hs, hd]
    | nil =>
      simp only [hd]
      by_cases hv : isValidHexPubkey ck = true
      · simp only [hv, if_pos]
        rw [checkNip37Events_eq]
        cases hf : fetch ck (parseRelays raw) with
        | none => simp [specAuthoritativeKey, hs, hd]
        | some ev => simp [specAuthoritativeKey, hs, hd]
      · simp [hv, specAuthoritativeKey, hs, hd]

/-- Claim C2: every record query of an evaluation uses the authoritative key
in the spec's sense: the stored binding's key when the domain has one, the
first prior owner's stored key when only the claimed key is known to the
store, and the claimed key only when neither prior trust exists. -/
theorem claim_C2 (fetch : FetchOracle) (store : Store) (d protocol : String)
    (sr : Option ScriptResult) :
    ∀ q ∈ (evaluate fetch store d protocol sr).queries,
      some q.1 = specAuthoritativeKey store d (claimedKeyOf sr) := by
  cases sr with
  | none =>
    rw [evaluate_missing_key fetch store d protocol none rfl]
    exact queries_missing fetch store d protocol
  | some r =>
    cases r with
    | mk p rel =>
      cases p with
      | none =>
        rw [evaluate_missing_key fetch store d protocol (some ⟨none, rel⟩) rfl]
        exact queries_missing fetch store d protocol
      | some p0 =>
        by_cases hp : p0 = ""
        · subst hp
          rw [evaluate_missing_key fetch store d protocol (some ⟨some "", rel⟩)
            (by simp [claimedKeyOf])]
          exact queries_missing fetch store d protocol
        · have hckeq : claimedKeyOf (some ⟨some p0, rel⟩) = some p0 := by
            simp [claimedKeyOf, hp]
          rw [hckeq]
          exact queries_present fetch store d protocol p0 rel hp

theorem claim_C2_witness :
    some ((kA, ["wss://a"]) : String × List String).1 =
      specAuthoritativeKey [("d", ⟨kA, ["wss://a"]⟩)] "d"
        (claimedKeyOf (some ⟨some kA, none⟩)) := by
  refine claim_C2 (fun _ _ => none) [("d", ⟨kA, ["wss://a"]⟩)] "d" "https"
    (some ⟨some kA, none⟩) (kA, ["wss://a"]) ?_
  decide

theorem check_badge (f : FetchOracle) (d k : String) (rs : List String) (p : String)
    (s : EvalState) :
    ∀ b, (checkNip37Events f d k rs p s).badge = some b →
      b = ((checkNip37Events f d k rs p s).pubkeyMismatch
        || (checkNip37Events f d k rs p s).nip37DomainMismatch) := by
  rw [checkNip37Events_eq]
  cases hf : f k rs with
  | none => intro b hb; simp at hb; simp [hb]
  | some ev =>
    intro b hb
    simp at hb
    rw [← hb, Bool.or_comm]

/-- Claim C6 (amended): for an observation whose claimed key is absent (no
meta tag, a null `content`, or an empty string): with a stored binding the
engine falls back to it — no mismatch warning, verdict flags untouched,
lookup with the stored key and relays; with no stored binding a terminal
no-identity state is shown and no record lookup or badge update happens.  (A
present but invalid-hex claimed key is instead routed through the normal
existing/new-domain paths; see the counterexample.) -/
theorem claim_C6_amended (fetch : FetchOracle) (store : Store) (d protocol : String)
    (sr : Option ScriptResult) (habsent : claimedKeyOf sr = none) :
    (∀ info, getSavedInfoForDomain store d = some info →
        (evaluate fetch store d protocol sr).pubkeyMismatch = false
        ∧ (evaluate fetch store d protocol sr).relaysUpdated = false
        ∧ (evaluate fetch store d protocol sr).isNewDomain = false
        ∧ (evaluate fetch store d protocol sr).isValidPubkey = true
        ∧ (evaluate fetch store d protocol sr).relays = info.relays
        ∧ (evaluate fetch store d protocol sr).queries = [(info.pubkey, info.relays)])
    ∧ (getSavedInfoForDomain store d = none →
        (evaluate fetch store d protocol sr).pubkey = "No Nostr pubkey found"
        ∧ (evaluate fetch store d protocol sr).isValidPubkey = false
        ∧ (evaluate fetch store d protocol sr).queries = []
        ∧ (evaluate fetch store d protocol sr).badge = none) := by
  rw [evaluate_missing_key fetch store d protocol sr habsent]
  constructor
  · intro info hs
    rw [hs]
    simp only [handleMissingPubkey, fallbackToSavedPubkey]
    rw [checkNip37Events_eq]
    cases hf : fetch info.pubkey info.relays with
    | none => simp [initEvalState]
    | some ev => simp [initEvalState]
  · intro hs
    rw [hs]
    simp [handleMissingPubkey, initEvalState]

theorem claim_C6_counterexample :
    isValidHexPubkey "zz" = false
    ∧ (evaluate (fun _ _ => none) [("d", ⟨kA, ["wss://a"]⟩)] "d" "https"
        (some ⟨some "zz", none⟩)).pubkeyMismatch = true :=
  ⟨by decide, by decide⟩

theorem claim_C6_witness :
    claimedKeyOf (none : Option ScriptResult) = none
    ∧ getSavedInfoForDomain [("d", ⟨kA, ["wss://a"]⟩)] "d" = some ⟨kA, ["wss://a"]⟩
    ∧ (evaluate (fun _ _ => none) [("d", ⟨kA, ["wss://a"]⟩)] "d" "https" none).queries =
        [(kA, ["wss://a"])] := by
  refine ⟨rfl, by decide, ?_⟩
  have h := (claim_C6_amended (fun _ _ => none) [("d", ⟨kA, ["wss://a"]⟩)] "d" "https"
    none rfl).1 ⟨kA, ["wss://a"]⟩ (by decide)
  exact h.2.2.2.2.2

/-- Claim C7 (amended): the badge, whenever an evaluation touches it, is set
to "warning" exactly when the evaluation ends with an unresolved pubkey
mismatch or a record status other than Verified, and cleared otherwise; the
Keep-incumbent override itself, however, leaves the badge untouched — it is
not cleared by resolving the mismatch (see the counterexample). -/
theorem claim_C7_amended (fetch : FetchOracle) (store : Store) (d protocol : String)
    (sr : Option ScriptResult) :
    (∀ b, (evaluate fetch store d protocol sr).badge = some b →
        b = ((evaluate fetch store d protocol sr).pubkeyMismatch
          || (evaluate fetch store d protocol sr).nip37DomainMismatch))
    ∧ (applyKeepOldPubkey (evaluate fetch store d protocol sr) d).badge =
        (evaluate fetch store d protocol sr).badge := by
  refine ⟨?_, rfl⟩
  have hmiss : ∀ b, (handleMissingPubkey fetch d (getSavedInfoForDomain store d) protocol
      (initEvalState store d)).badge = some b →
      b = ((handleMissingPubkey fetch d (getSavedInfoForDomain store d) protocol
          (initEvalState store d)).pubkeyMismatch
        || (handleMissingPubkey fetch d (getSavedInfoForDomain store d) protocol
          (initEvalState store d)).nip37DomainMismatch) := by
    cases hs : getSavedInfoForDomain store d with
    | some info =>
      simp only [handleMissingPubkey, fallbackToSavedPubkey]
      exact check_badge fetch d info.pubkey info.relays protocol _
    | none =>
      intro b hb
      simp [handleMissingPubkey, initEvalState] at hb
  cases sr with
  | none =>
    rw [evaluate_missing_key fetch store d protocol none rfl]
    exact hmiss
  | some r =>
    cases r with
    | mk p rel =>
      cases p with
      | none =>
        rw [evaluate_missing_key fetch store d protocol (some ⟨none, rel⟩) rfl]
        exact hmiss
      | some p0 =>
        by_cases hp : p0 = ""
        · subst hp
          rw [evaluate_missing_key fetch store d protocol (some ⟨some "", rel⟩)
            (by simp [claimedKeyOf])]
          exact hmiss
        · rw [evaluate_some_key fetch store d protocol p0 rel hp]
          cases hs : getSavedInfoForDomain store d with
          | some info =>
            simp only [handleExistingDomain]
            split
            · exact check_badge fetch d info.pubkey info.relays protocol _
            · exact check_badge fetch d info.pubkey info.relays protocol _
          | none =>
            simp only [handleNewDomain, initEvalState, hs]
            cases hd : getDomainsForPubkey store p0 with
            | cons e rest =>
              simp only [hd]
              exact check_badge fetch d e.2.pubkey e.2.relays protocol _
            | nil =>
              simp only [hd]
              by_cases hv : isValidHexPubkey p0 = true
              · simp only [hv, if_pos]
                exact check_badge fetch d p0 (parseRelays rel) protocol _
              · intro b hb
                simp [hv] at hb

theorem claim_C7_witness :
    true = ((evaluate (fun _ _ => none) [("d", ⟨kA, ["wss://a"]⟩)] "d" "https"
        (some ⟨some kB, none⟩)).pubkeyMismatch
      || (evaluate (fun _ _ => none) [("d", ⟨kA, ["wss://a"]⟩)] "d" "https"
        (some ⟨some kB, none⟩)).nip37DomainMismatch) := by
  exact (claim_C7_amended (fun _ _ => none) [("d", ⟨kA, ["wss://a"]⟩)] "d" "https"
    (some ⟨some kB, none⟩)).1 true (by decide)

theorem claim_C7_counterexample :
    (evaluate (fun _ _ => none) [("d", ⟨kA, ["wss://a"]⟩)] "d" "https"
      (some ⟨some kB, none⟩)).pubkeyMismatch = true
    ∧ (applyKeepOldPubkey
        (evaluate (fun _ _ => none) [("d", ⟨kA, ["wss://a"]⟩)] "d" "https"
          (some ⟨some kB, none⟩)) "d").badge = some true :=
  ⟨by decide, by decide⟩

theorem domainFoundOf_iff (ev : NostrEvent) (d protocol : String) :
    domainFoundOf ev d protocol = true ↔
      ∃ t ∈ ev.tags, t[0]? = some "clearnet" ∧ t[1]? = some d ∧ t[2]? = some protocol
        ∧ d ≠ "" ∧ protocol ≠ "" := by
  unfold domainFoundOf
  rw [List.any_eq_true]
  constructor
  · rintro ⟨t, ht, hpred⟩
    have hmem := List.mem_filter.mp ht
    obtain ⟨h1, h2⟩ : t[1]? = some d ∧ t[2]? = some protocol := by simpa using hpred
    have hc := hmem.2
    unfold isClearnetTag at hc
    simp only [Bool.and_eq_true, beq_iff_eq] at hc
    refine ⟨t, hmem.1, hc.1.1, h1, h2, ?_, ?_⟩
    · have := hc.1.2
      rw [h1] at this
      simpa [truthyStr] using this
    · have := hc.2
      rw [h2] at this
      simpa [truthyStr] using this
  · rintro ⟨t, ht, h0, h1, h2, hd, hp⟩
    refine ⟨t, List.mem_filter.mpr ⟨ht, ?_⟩, ?_⟩
    · unfold isClearnetTag
      simp [h0, h1, h2, truthyStr, hd, hp]
    · simp [h1, h2]

/-- Claim C3 (amended): record reconciliation yields: no record → status
NoRecordFound (no-event plus unverified flags) with the endorsed-domain list
untouched (empty in the pipeline); with a record → Verified exactly when some
well-formed clearnet entry matches both the observed domain and protocol by
exact string equality, else RevokedOrUnendorsed; and the endorsed-domain list
is all well-formed clearnet entries of the record — regardless of their
protocol (the source does not filter the display list by protocol; see the
counterexample). -/
theorem claim_C3_amended (fetch : FetchOracle) (d k : String) (rs : List String)
    (protocol : String) (s : EvalState) (hinit : s.nip37Domains = []) :
    (fetch k rs = none →
      (checkNip37Events fetch d k rs protocol s).noNip37EventFound = true
      ∧ (checkNip37Events fetch d k rs protocol s).nip37DomainMismatch = true
      ∧ (checkNip37Events fetch d k rs protocol s).nip37Domains = [])
    ∧ (∀ ev, fetch k rs = some ev →
        (checkNip37Events fetch d k rs protocol s).noNip37EventFound = false
        ∧ ((checkNip37Events fetch d k rs protocol s).nip37DomainMismatch = false ↔
            ∃ t ∈ ev.tags, t[0]? = some "clearnet" ∧ t[1]? = some d
              ∧ t[2]? = some protocol ∧ d ≠ "" ∧ protocol ≠ "")
        ∧ (checkNip37Events fetch d k rs protocol s).nip37Domains = nip37DomainsOf ev) := by
  rw [checkNip37Events_eq]
  constructor
  · intro hf
    rw [hf]
    simpa using hinit
  · intro ev hf
    rw [hf]
    refine ⟨rfl, ?_, rfl⟩
    rw [← domainFoundOf_iff ev d protocol]
    simp

theorem claim_C3_counterexample :
    (evaluate (fun _ _ => some evDE) [] "d" "https"
      (some ⟨some kA, some "wss://r"⟩)).nip37Domains = [("d", "https"), ("e", "http")]
    ∧ ("e", "http") ∈ (evaluate (fun _ _ => some evDE) [] "d" "https"
      (some ⟨some kA, some "wss://r"⟩)).nip37Domains
    ∧ "http" ≠ "https" :=
  ⟨by decide, by decide, by decide⟩

theorem claim_C3_witness :
    (checkNip37Events (fun _ _ => some evDE) "d" kA ["wss://r"] "https"
      (initEvalState [] "d")).noNip37EventFound = false
    ∧ (checkNip37Events (fun _ _ => some evDE) "d" kA ["wss://r"] "https"
        (initEvalState [] "d")).nip37Domains = nip37DomainsOf evDE := by
  have h := (claim_C3_amended (fun _ _ => some evDE) "d" kA ["wss://r"] "https"
    (initEvalState [] "d") rfl).2 evDE rfl
  exact ⟨h.1, h.2.2⟩

/-- Claim C4: with a stored binding whose pubkey equals the valid claimed key
and a claimed relay list that differs from the stored one, the relay update
is persisted exactly when the record fetched with the stored key and stored
relays verifies the observed (domain, protocol); otherwise the store — and in
particular the stored relay list — is untouched. -/
theorem claim_C4 (fetch : FetchOracle) (store : Store) (d protocol ck : String)
    (raw : Option String) (info : DomainInfo)
    (hstored : getSavedInfoForDomain store d = some info)
    (hpk : info.pubkey = ck)
    (hvalid : isValidHexPubkey ck = true)
    (hdiff : parseRelays raw ≠ info.relays) :
    (verifiedAt fetch ck info.relays d protocol = true →
      getSavedInfoForDomain (evaluate fetch store d protocol (some ⟨some ck, raw⟩)).store d =
        some ⟨ck, parseRelays raw⟩
      ∧ (evaluate fetch store d protocol (some ⟨some ck, raw⟩)).store =
          saveDomainInfo store d ck (parseRelays raw))
    ∧ (verifiedAt fetch ck info.relays d protocol = false →
      (evaluate fetch store d protocol (some ⟨some ck, raw⟩)).store = store) := by
  subst hpk
  have hck : info.pubkey ≠ "" := validHex_ne_empty hvalid
  rw [evaluate_some_key fetch store d protocol info.pubkey raw hck, hstored]
  simp only [handleExistingDomain, if_neg (by simp : ¬info.pubkey ≠ info.pubkey)]
  rw [checkNip37Events_eq]
  cases hf : fetch info.pubkey info.relays with
  | none =>
    have hv : verifiedAt fetch info.pubkey info.relays d protocol = false := by
      simp [verifiedAt, hf]
    rw [hv]
    refine ⟨fun h => Bool.noConfusion h, fun _ => ?_⟩
    simp [hf, hdiff, initEvalState, hstored]
  | some ev =>
    have hv : verifiedAt fetch info.pubkey info.relays d protocol =
        domainFoundOf ev d protocol := by
      simp [verifiedAt, hf]
    rw [hv]
    cases hdf : domainFoundOf ev d protocol with
    | false =>
      refine ⟨fun h => Bool.noConfusion h, fun _ => ?_⟩
      simp [hf, hdf, hdiff, initEvalState, hstored]
    | true =>
      refine ⟨fun _ => ?_, fun h => Bool.noConfusion h⟩
      have hsave : getSavedInfoForDomain
          (saveDomainInfo store d info.pubkey (parseRelays raw)) d =
          some ⟨info.pubkey, parseRelays raw⟩ :=
        getSaved_setEntry_same d ⟨info.pubkey, parseRelays raw⟩ store
      constructor
      · simp [hf, hdf, hdiff, initEvalState, hstored, hsave]
      · simp [hf, hdf, hdiff, initEvalState, hstored, hsave]

/-- A concrete oracle verifying only the pair (d, https): used by relay
persistence witnesses. -/
def fetchDE : FetchOracle := fun _ _ => some evDE

theorem claim_C4_witness :
    getSavedInfoForDomain [("d", ⟨kA, ["wss://a"]⟩)] "d" = some ⟨kA, ["wss://a"]⟩
    ∧ isValidHexPubkey kA = true
    ∧ parseRelays (some "wss://b") ≠ (["wss://a"] : List String)
    ∧ verifiedAt fetchDE kA ["wss://a"] "d" "https" = true
    ∧ getSavedInfoForDomain (evaluate fetchDE [("d", ⟨kA, ["wss://a"]⟩)] "d" "https"
        (some ⟨some kA, some "wss://b"⟩)).store "d" = some ⟨kA, ["wss://b"]⟩ := by
  refine ⟨by decide, by decide, by decide, by decide, ?_⟩
  have h := (claim_C4 fetchDE [("d", ⟨kA, ["wss://a"]⟩)] "d" "https" kA (some "wss://b")
    ⟨kA, ["wss://a"]⟩ (by decide) rfl (by decide) (by decide)).1 (by decide)
  have h2 := h.1
  simpa using h2

/-- Claim C5 (amended): with a stored binding whose pubkey equals the valid
claimed key, the relays-updated verdict is produced exactly when the claimed
relay list differs from the stored one as an ordered list (the source
compares `JSON.stringify` of the arrays, so order and duplicates matter) AND
the fetched record verifies the observed (domain, protocol); otherwise the
verdict is Unchanged.  In particular the same relay set in a different order
counts as changed, not Unchanged (see the counterexample). -/
theorem claim_C5_amended (fetch : FetchOracle) (store : Store) (d protocol ck : String)
    (raw : Option String) (info : DomainInfo)
    (hstored : getSavedInfoForDomain store d = some info)
    (hpk : info.pubkey = ck)
    (hvalid : isValidHexPubkey ck = true) :
    (evaluate fetch store d protocol (some ⟨some ck, raw⟩)).relaysUpdated =
      (decide (parseRelays raw ≠ info.relays)
        && verifiedAt fetch ck info.relays d protocol)
    ∧ (evaluate fetch store d protocol (some ⟨some ck, raw⟩)).pubkeyMismatch = false
    ∧ (evaluate fetch store d protocol (some ⟨some ck, raw⟩)).isNewDomain = false := by
  subst hpk
  have hck : info.pubkey ≠ "" := validHex_ne_empty hvalid
  rw [evaluate_some_key fetch store d protocol info.pubkey raw hck, hstored]
  simp only [handleExistingDomain, if_neg (by simp : ¬info.pubkey ≠ info.pubkey)]
  rw [checkNip37Events_eq]
  cases hf : fetch info.pubkey info.relays with
  | none =>
    by_cases hrc : parseRelays raw ≠ info.relays
    · simp [hf, hrc, initEvalState, verifiedAt]
    · simp [hf, hrc, initEvalState, verifiedAt]
  | some ev =>
    cases hdf : domainFoundOf ev d protocol with
    | false =>
      by_cases hrc : parseRelays raw ≠ info.relays
      · simp [hf, hrc, hdf, initEvalState, verifiedAt]
      · simp [hf, hrc, hdf, initEvalState, verifiedAt]
    | true =>
      by_cases hrc : parseRelays raw ≠ info.relays
      · simp [hf, hrc, hdf, initEvalState, verifiedAt]
      · simp [hf, hrc, hdf, initEvalState, verifiedAt]

theorem claim_C5_counterexample :
    (parseRelays (some "wss://b,wss://a")).toFinset =
      (["wss://a", "wss://b"] : List String).toFinset
    ∧ (evaluate fetchDE [("d", ⟨kA, ["wss://a", "wss://b"]⟩)] "d" "https"
        (some ⟨some kA, some "wss://b,wss://a"⟩)).relaysUpdated = true :=
  ⟨by decide, by decide⟩

theorem claim_C5_witness :
    getSavedInfoForDomain [("d", ⟨kA, ["wss://a", "wss://b"]⟩)] "d" =
      some ⟨kA, ["wss://a", "wss://b"]⟩
    ∧ isValidHexPubkey kA = true
    ∧ (evaluate fetchDE [("d", ⟨kA, ["wss://a", "wss://b"]⟩)] "d" "https"
        (some ⟨some kA, some "wss://b,wss://a"⟩)).relaysUpdated =
      (decide (parseRelays (some "wss://b,wss://a") ≠
          (⟨kA, ["wss://a", "wss://b"]⟩ : DomainInfo).relays)
        && verifiedAt fetchDE kA ["wss://a", "wss://b"] "d" "https") := by
  refine ⟨by decide, by decide, ?_⟩
  exact (claim_C5_amended fetchDE [("d", ⟨kA, ["wss://a", "wss://b"]⟩)] "d" "https" kA
    (some "wss://b,wss://a") ⟨kA, ["wss://a", "wss://b"]⟩ (by decide) rfl (by decide)).1
